import Mathlib

/-!
Verification of the PicoUSBKeyBridge firmware core (src/main.c, src/keyemu_log.c)
against its natural-language specification.

The embedding is shallow: each C function of the pipeline is translated into an
executable Lean definition over explicit state.

Conventions of the embedding:
* Machine integers become `Nat` with explicit `% 2^w` where overflow or the
  width of a field matters (`uint8_t` stores are masked with `% 256`; the
  `uint32_t` wraparound subtraction `now - last_seen` becomes
  `(now + 2^32 - last_seen) % 2^32` for arguments below `2^32`).
* The two C ring buffers (`key_queue` of 64 `uint16_t` packets in main.c and
  `log_buffer` of 8192 bytes in keyemu_log.c) are embedded as structures with a
  backing function `buf : Nat → Nat` and `head`/`tail` indices; reads and
  writes happen at indices reduced mod the capacity, exactly as in C.
* Functions with side effects on globals become state-passing functions;
  observable outputs (HID reports written to the PIO USB endpoint, bytes and
  warning lines written to the CDC TX buffer) are returned as lists of events.
* The C field `log_initialized` / flag `core1_initialized` are embedded under
  the shortened names `inited` / `core1_inited`.
-/

set_option maxHeartbeats 1000000

namespace PicoUSBKeyBridge

/-! ## Bounded packet queue (main.c lines 176-210)

`key_queue` is a 64-slot ring buffer of packed 16-bit key packets living on
core0.  One slot stays permanently unused to distinguish full from empty. -/

def PUSBKB_QUEUE_LEN : Nat := 64

structure KeyQueue where
  buf : Nat → Nat
  head : Nat
  tail : Nat

/-- The C globals start zeroed: `key_queue_head = 0`, `key_queue_tail = 0`. -/
def KeyQueue.start : KeyQueue := ⟨fun _ => 0, 0, 0⟩

/-- The indices of the C ring are `uint16_t` values kept below the capacity. -/
def KeyQueue.Valid (q : KeyQueue) : Prop :=
  q.head < PUSBKB_QUEUE_LEN ∧ q.tail < PUSBKB_QUEUE_LEN

/-- Embedding of `key_queue_is_empty` (main.c line 183). -/
def key_queue_is_empty (q : KeyQueue) : Bool :=
  q.head == q.tail

/-- Embedding of `key_queue_free_space` (main.c lines 187-192). -/
def key_queue_free_space (q : KeyQueue) : Nat :=
  if q.head ≥ q.tail then
    PUSBKB_QUEUE_LEN - (q.head - q.tail) - 1
  else
    (q.tail - q.head) - 1

/-- Embedding of `key_queue_push` (main.c lines 194-201).  Returns the C `bool` result
together with the updated queue state. -/
def key_queue_push (packed : Nat) (q : KeyQueue) : Bool × KeyQueue :=
  if key_queue_free_space q = 0 then
    (false, q)
  else
    (true, { q with
               buf := fun j => if j = q.head then packed else q.buf j,
               head := (q.head + 1) % PUSBKB_QUEUE_LEN })

/-- Embedding of `key_queue_pop` (main.c lines 203-210).  The C function writes `*out` and
returns a `bool`; we return `some out` on success and `none` when empty (in C
`*out` is left untouched in that case). -/
def key_queue_pop (q : KeyQueue) : Option Nat × KeyQueue :=
  if q.head = q.tail then
    (none, q)
  else
    (some (q.buf q.tail), { q with tail := (q.tail + 1) % PUSBKB_QUEUE_LEN })

/-- Number of packets currently stored: `(head - tail) mod 64`, written without
truncated subtraction (valid for `tail ≤ 64`). -/
def KeyQueue.occupied (q : KeyQueue) : Nat :=
  (q.head + (PUSBKB_QUEUE_LEN - q.tail)) % PUSBKB_QUEUE_LEN

/-- Abstraction function: the stored packets in order, oldest first. -/
def KeyQueue.contents (q : KeyQueue) : List Nat :=
  (List.range q.occupied).map (fun i => q.buf ((q.tail + i) % PUSBKB_QUEUE_LEN))

theorem key_queue_length_contents (q : KeyQueue) :
    q.contents.length = q.occupied := by
  simp [KeyQueue.contents]

theorem key_queue_occupied_lt (q : KeyQueue) : q.occupied < PUSBKB_QUEUE_LEN :=
  Nat.mod_lt _ (by simp [PUSBKB_QUEUE_LEN])

theorem key_queue_free_space_eq (q : KeyQueue) (hv : q.Valid) :
    key_queue_free_space q = PUSBKB_QUEUE_LEN - 1 - q.occupied := by
  rcases hv with ⟨hh, ht⟩
  simp only [key_queue_free_space, KeyQueue.occupied, PUSBKB_QUEUE_LEN] at *
  split <;> omega

theorem key_queue_is_empty_iff (q : KeyQueue) (hv : q.Valid) :
    key_queue_is_empty q = true ↔ q.contents = [] := by
  rcases hv with ⟨hh, ht⟩
  have hocc : q.contents = [] ↔ q.occupied = 0 := by
    constructor
    · intro h
      have := congrArg List.length h
      simpa [key_queue_length_contents] using this
    · intro h
      simp [KeyQueue.contents, h]
  rw [hocc]
  simp only [key_queue_is_empty, beq_iff_eq, KeyQueue.occupied, PUSBKB_QUEUE_LEN] at *
  omega

/-- Successful push: with at least one free slot, `key_queue_push` returns
`true` and appends the packet at the end of the stored sequence. -/
theorem key_queue_push_spec (packed : Nat) (q : KeyQueue) (hv : q.Valid)
    (hocc : q.occupied < PUSBKB_QUEUE_LEN - 1) :
    (key_queue_push packed q).1 = true ∧
    (key_queue_push packed q).2.contents = q.contents ++ [packed] ∧
    (key_queue_push packed q).2.Valid ∧
    (key_queue_push packed q).2.tail = q.tail := by
  rcases hv with ⟨hh, ht⟩
  have hfree : key_queue_free_space q ≠ 0 := by
    rw [key_queue_free_space_eq q ⟨hh, ht⟩]
    omega
  simp only [key_queue_push, hfree, if_neg, ite_false]
  refine ⟨by trivial, ?_, ⟨?_, ht⟩, by trivial⟩
  · -- contents of the pushed queue
    have hocc' : (KeyQueue.mk (fun j => if j = q.head then packed else q.buf j)
        ((q.head + 1) % PUSBKB_QUEUE_LEN) q.tail).occupied = q.occupied + 1 := by
      simp only [KeyQueue.occupied, PUSBKB_QUEUE_LEN] at *
      omega
    simp only [KeyQueue.contents] at *
    rw [hocc']
    rw [List.range_succ, List.map_append]
    congr 1
    · apply List.map_congr_left
      intro i hi
      rw [List.mem_range] at hi
      have hne : (q.tail + i) % PUSBKB_QUEUE_LEN ≠ q.head := by
        simp only [KeyQueue.occupied, PUSBKB_QUEUE_LEN] at *
        omega
      simp [hne]
    · have heq : (q.tail + q.occupied) % PUSBKB_QUEUE_LEN = q.head := by
        simp only [KeyQueue.occupied, PUSBKB_QUEUE_LEN] at *
        omega
      simp [heq]
  · simp only [PUSBKB_QUEUE_LEN]
    omega

/-- Failed push: with no free slot, `key_queue_push` returns `false` and
leaves the queue untouched. -/
theorem key_queue_push_full (packed : Nat) (q : KeyQueue) (hv : q.Valid)
    (hocc : q.occupied = PUSBKB_QUEUE_LEN - 1) :
    key_queue_push packed q = (false, q) := by
  have hfree : key_queue_free_space q = 0 := by
    rw [key_queue_free_space_eq q hv, hocc]
    decide
  simp [key_queue_push, hfree]

/-- Pop: returns the oldest stored packet (or `none` on an empty queue) and
removes it from the stored sequence. -/
theorem key_queue_pop_spec (q : KeyQueue) (hv : q.Valid) :
    (key_queue_pop q).1 = q.contents.head? ∧
    (key_queue_pop q).2.contents = q.contents.drop 1 ∧
    (key_queue_pop q).2.Valid := by
  rcases hv with ⟨hh, ht⟩
  by_cases hempty : q.head = q.tail
  · have hocc : q.occupied = 0 := by
      simp only [KeyQueue.occupied, PUSBKB_QUEUE_LEN] at *
      omega
    simp [key_queue_pop, hempty, KeyQueue.contents, hocc, KeyQueue.Valid, hh, ht]
  · have hocc : q.occupied ≠ 0 := by
      simp only [KeyQueue.occupied, PUSBKB_QUEUE_LEN] at *
      omega
    obtain ⟨n, hn⟩ : ∃ n, q.occupied = n + 1 := ⟨q.occupied - 1, by omega⟩
    have hocclt := key_queue_occupied_lt q
    refine ⟨?_, ?_, ?_⟩
    · simp only [key_queue_pop, hempty, ite_false, KeyQueue.contents, hn,
        List.range_succ_eq_map, List.map_cons, List.head?_cons]
      have : (q.tail + 0) % PUSBKB_QUEUE_LEN = q.tail := by
        simp only [PUSBKB_QUEUE_LEN] at *; omega
      rw [this]
    · simp only [key_queue_pop, hempty, ite_false, KeyQueue.contents]
      have hocc' : (KeyQueue.mk q.buf q.head ((q.tail + 1) % PUSBKB_QUEUE_LEN)).occupied = n := by
        simp only [KeyQueue.occupied, PUSBKB_QUEUE_LEN] at *
        omega
      rw [hocc', hn, List.range_succ_eq_map, List.map_cons, List.drop_one,
        List.tail_cons, List.map_map]
      apply List.map_congr_left
      intro i hi
      have harith : ((q.tail + 1) % PUSBKB_QUEUE_LEN + i) % PUSBKB_QUEUE_LEN
          = (q.tail + Nat.succ i) % PUSBKB_QUEUE_LEN := by
        simp only [PUSBKB_QUEUE_LEN] at *
        omega
      simp [harith, Function.comp]
    · simp only [key_queue_pop, hempty, ite_false, KeyQueue.Valid, PUSBKB_QUEUE_LEN]
      constructor
      · exact hh
      · omega

/-! ## Repeated pushes with the caller's drop accounting (main.c lines 418-426)

`core0_handle_cdc_input` attempts `key_queue_push(packed)` for each completed
frame and, on failure, increments `state->dropped_queue`.  `key_queue_push_run`
replays that caller loop for a list of packets, recording each push result. -/

def key_queue_push_run (ps : List Nat) (q : KeyQueue) (dropped : Nat) :
    List Bool × KeyQueue × Nat :=
  match ps with
  | [] => ([], q, dropped)
  | p :: rest =>
    let r := key_queue_push p q
    let dropped' := if r.1 then dropped else dropped + 1
    let rec' := key_queue_push_run rest r.2 dropped'
    (r.1 :: rec'.1, rec'.2.1, rec'.2.2)

/-- Popping `n` times in a row (as `core0_drain_queue_to_fifo` would when the
FIFO stays ready), collecting the popped packets. -/
def key_queue_pop_run : Nat → KeyQueue → List Nat × KeyQueue
  | 0, q => ([], q)
  | n + 1, q =>
    match key_queue_pop q with
    | (none, q') => ([], q')
    | (some x, q') =>
      let rec' := key_queue_pop_run n q'
      (x :: rec'.1, rec'.2)

/-- General behaviour of a run of pushes: the `i`-th push succeeds exactly when
the queue still has room (fewer than 63 packets), failures bump the drop
counter one each, and exactly the fitting prefix is stored. -/
theorem key_queue_push_run_spec (ps : List Nat) (q : KeyQueue) (dropped : Nat)
    (hv : q.Valid) :
    (key_queue_push_run ps q dropped).1 =
      (List.range ps.length).map (fun i => decide (q.contents.length + i < 63)) ∧
    (key_queue_push_run ps q dropped).2.2 =
      dropped + (ps.length - (63 - q.contents.length)) ∧
    (key_queue_push_run ps q dropped).2.1.contents =
      q.contents ++ ps.take (63 - q.contents.length) ∧
    (key_queue_push_run ps q dropped).2.1.Valid := by
  induction ps generalizing q dropped with
  | nil => simpa [key_queue_push_run] using hv
  | cons p rest ih =>
    have hlen : q.contents.length = q.occupied := key_queue_length_contents q
    have hocclt : q.occupied < 64 := by
      simpa [PUSBKB_QUEUE_LEN] using key_queue_occupied_lt q
    by_cases hroom : q.occupied < 63
    · obtain ⟨hpush, hcont, hv', htail⟩ := key_queue_push_spec p q hv (by
        simpa [PUSBKB_QUEUE_LEN] using hroom)
      obtain ⟨ih1, ih2, ih3, ih4⟩ := ih (key_queue_push p q).2 dropped hv'
      have hlen' : (key_queue_push p q).2.contents.length = q.contents.length + 1 := by
        simp [hcont]
      refine ⟨?_, ?_, ?_, ?_⟩
      · simp only [key_queue_push_run, hpush, ih1, if_true, List.length_cons,
          List.range_succ_eq_map, List.map_cons, List.map_map]
        rw [show decide (q.contents.length + 0 < 63) = true by
          simp only [decide_eq_true_eq]; omega]
        congr 1
        apply List.map_congr_left
        intro i _
        simp only [Function.comp, hlen']
        rw [decide_eq_decide]
        omega
      · simp only [key_queue_push_run, hpush, if_true, ih2, hlen',
          List.length_cons]
        omega
      · simp only [key_queue_push_run, hpush, if_true, ih3, hcont, hlen']
        have h63 : 63 - q.contents.length = (63 - (q.contents.length + 1)) + 1 := by
          omega
        rw [h63, List.take_succ_cons]
        simp [List.append_assoc]
      · simpa [key_queue_push_run, hpush] using ih4
    · have hocc : q.occupied = 63 := by omega
      have hfull : key_queue_push p q = (false, q) :=
        key_queue_push_full p q hv (by simpa [PUSBKB_QUEUE_LEN] using hocc)
      obtain ⟨ih1, ih2, ih3, ih4⟩ := ih q (dropped + 1) hv
      refine ⟨?_, ?_, ?_, ?_⟩
      · simp only [key_queue_push_run, hfull, Bool.false_eq_true, if_false, ih1,
          List.length_cons, List.range_succ_eq_map, List.map_cons, List.map_map]
        rw [show decide (q.contents.length + 0 < 63) = false by
          simp only [decide_eq_false_iff_not]; omega]
        congr 1
        apply List.map_congr_left
        intro i _
        simp only [Function.comp]
        rw [decide_eq_decide]
        omega
      · simp only [key_queue_push_run, hfull, Bool.false_eq_true, if_false, ih2,
          List.length_cons]
        omega
      · simp only [key_queue_push_run, hfull, Bool.false_eq_true, if_false, ih3]
        have h0 : 63 - q.contents.length = 0 := by omega
        simp [h0]
      · simpa [key_queue_push_run, hfull] using ih4

/-- Popping at most the stored count returns exactly the oldest packets in
order and removes them. -/
theorem key_queue_pop_run_spec (n : Nat) (q : KeyQueue) (hv : q.Valid)
    (hn : n ≤ q.contents.length) :
    (key_queue_pop_run n q).1 = q.contents.take n ∧
    (key_queue_pop_run n q).2.contents = q.contents.drop n ∧
    (key_queue_pop_run n q).2.Valid := by
  induction n generalizing q with
  | zero => simpa [key_queue_pop_run] using hv
  | succ m ih =>
    obtain ⟨hp1, hp2, hp3⟩ := key_queue_pop_spec q hv
    have hne : q.contents ≠ [] := by
      intro h
      rw [h] at hn
      simp at hn
    obtain ⟨x, rest, hx⟩ := List.exists_cons_of_ne_nil hne
    have hpop : key_queue_pop q = (some x, (key_queue_pop q).2) := by
      have : (key_queue_pop q).1 = some x := by rw [hp1, hx]; rfl
      rw [← this]
    obtain ⟨ih1, ih2, ih3⟩ := ih (key_queue_pop q).2 hp3 (by
      rw [hp2, hx]
      simpa [hx] using hn)
    refine ⟨?_, ?_, ?_⟩
    · rw [key_queue_pop_run, hpop]
      simp only [ih1, hp2, hx, List.drop_one, List.tail_cons, List.take_succ_cons]
    · rw [key_queue_pop_run, hpop]
      simp only [ih2, hp2, hx, List.drop_one, List.tail_cons, List.drop_succ_cons]
      simp
    · rw [key_queue_pop_run, hpop]
      exact ih3

/-- C3: for the capacity-64 queue starting empty, pushing 64 packets makes the
first 63 succeed and the 64th fail with the caller's `dropped_queue` counter
going up by exactly 1; after one successful pop one further push succeeds; and
popping all 63 stored packets leaves the queue reporting empty. -/
theorem key_queue_capacity_claim (ps : List Nat) (h64 : ps.length = 64) :
    (key_queue_push_run ps KeyQueue.start 0).1 =
      List.replicate 63 true ++ [false] ∧
    (key_queue_push_run ps KeyQueue.start 0).2.2 = 1 ∧
    ((key_queue_pop ((key_queue_push_run ps KeyQueue.start 0).2.1)).1.isSome ∧
      ∀ p', (key_queue_push p'
        ((key_queue_pop ((key_queue_push_run ps KeyQueue.start 0).2.1)).2)).1 = true) ∧
    key_queue_is_empty
      ((key_queue_pop_run 63 ((key_queue_push_run ps KeyQueue.start 0).2.1)).2) = true := by
  have hvstart : KeyQueue.start.Valid := by
    constructor <;> simp [KeyQueue.start, PUSBKB_QUEUE_LEN]
  have hcstart : KeyQueue.start.contents = [] := by
    simp [KeyQueue.contents, KeyQueue.occupied, KeyQueue.start]
  obtain ⟨h1, h2, h3, h4⟩ := key_queue_push_run_spec ps KeyQueue.start 0 hvstart
  rw [hcstart] at h1 h2 h3
  simp only [List.length_nil, List.nil_append, Nat.zero_add, h64] at h1 h2 h3
  have htake : (ps.take 63).length = 63 := by
    rw [List.length_take]
    omega
  refine ⟨?_, ?_, ⟨?_, ?_⟩, ?_⟩
  · rw [h1]
    decide
  · rw [h2]
  · obtain ⟨hp1, _, _⟩ := key_queue_pop_spec _ h4
    rw [hp1, h3]
    have : ps.take 63 ≠ [] := by
      intro h
      rw [h] at htake
      simp at htake
    simp [List.head?_isSome, this]
  · intro p'
    obtain ⟨_, hp2, hp3⟩ := key_queue_pop_spec _ h4
    obtain ⟨hs, _, _, _⟩ := key_queue_push_spec p' _ hp3 (by
      rw [← key_queue_length_contents, hp2, h3, List.length_drop, htake]
      simp [PUSBKB_QUEUE_LEN])
    exact hs
  · obtain ⟨_, hpr2, hpr3⟩ := key_queue_pop_run_spec 63 _ h4 (by rw [h3, htake])
    rw [key_queue_is_empty_iff _ hpr3, hpr2, h3, List.drop_eq_nil_iff, htake]

/-- Witness for C3 at a concrete packet list. -/
theorem key_queue_capacity_claim_witness :
    (List.replicate 64 7).length = 64 ∧
    (key_queue_push_run (List.replicate 64 7) KeyQueue.start 0).1 =
      List.replicate 63 true ++ [false] ∧
    (key_queue_push_run (List.replicate 64 7) KeyQueue.start 0).2.2 = 1 ∧
    ((key_queue_pop ((key_queue_push_run (List.replicate 64 7) KeyQueue.start 0).2.1)).1.isSome ∧
      ∀ p', (key_queue_push p'
        ((key_queue_pop ((key_queue_push_run (List.replicate 64 7) KeyQueue.start 0).2.1)).2)).1 = true) ∧
    key_queue_is_empty
      ((key_queue_pop_run 63
        ((key_queue_push_run (List.replicate 64 7) KeyQueue.start 0).2.1)).2) = true :=
  ⟨by decide, key_queue_capacity_claim (List.replicate 64 7) (by decide)⟩

/-! ## Ordering across the queue and the cross-core FIFO (main.c lines 338-353)

`core0_drain_queue_to_fifo` pops packets from `key_queue` and pushes them into
the multicore FIFO; when `multicore_fifo_push_timeout_us` fails the popped
packet is deliberately dropped (never re-queued), to preserve ordering.

`SysState` carries the queue together with ghost observation lists: the
packets accepted by `key_queue_push` in order (`pushedOK`), the packets
returned by `key_queue_pop` in order (`popped`), and the packets actually
pushed into the FIFO in order (`delivered`). -/

structure SysState where
  q : KeyQueue
  pushedOK : List Nat
  popped : List Nat
  delivered : List Nat

def SysState.start : SysState := ⟨KeyQueue.start, [], [], []⟩

/-- One execution of the body of `core0_drain_queue_to_fifo`'s `while` loop,
iterated over an oracle list supplying, per iteration, the outcome of the
`multicore_fifo_wready()` check and of `multicore_fifo_push_timeout_us`.
An exhausted oracle behaves like `wready = false`. -/
def core0_drain_queue_to_fifo : List (Bool × Bool) → SysState → SysState
  | [], st => st
  | (wready, sendOk) :: rest, st =>
    if wready = false then st
    else
      match key_queue_pop st.q with
      | (none, _) => st
      | (some x, q') =>
        if sendOk then
          core0_drain_queue_to_fifo rest
            { st with q := q', popped := st.popped ++ [x],
                      delivered := st.delivered ++ [x] }
        else
          -- FIFO push timeout: drop the packet, break out of the loop.
          { st with q := q', popped := st.popped ++ [x] }

/-- The operations core0 may interleave on the queue/FIFO hand-off. -/
inductive SysOp where
  | push (p : Nat)
  | pop
  | drain (oracle : List (Bool × Bool))

def sysStep (st : SysState) : SysOp → SysState
  | .push p =>
    let r := key_queue_push p st.q
    if r.1 then { st with q := r.2, pushedOK := st.pushedOK ++ [p] }
    else { st with q := r.2 }
  | .pop =>
    match key_queue_pop st.q with
    | (none, _) => st
    | (some x, q') => { st with q := q', popped := st.popped ++ [x] }
  | .drain oracle => core0_drain_queue_to_fifo oracle st

def sysRun (ops : List SysOp) (st : SysState) : SysState :=
  ops.foldl sysStep st

/-- The ordering invariant: every packet ever accepted is either already
popped (in order) or still stored, and the delivered sequence is an
order-preserving subsequence of the popped sequence. -/
def SysInv (st : SysState) : Prop :=
  st.q.Valid ∧
  st.pushedOK = st.popped ++ st.q.contents ∧
  st.delivered.Sublist st.popped

theorem sysStep_preserves (st : SysState) (op : SysOp) (hinv : SysInv st) :
    SysInv (sysStep st op) := by
  obtain ⟨hv, horder, hsub⟩ := hinv
  cases op with
  | push p =>
    have hocclt : st.q.occupied < 64 := by
      simpa [PUSBKB_QUEUE_LEN] using key_queue_occupied_lt st.q
    by_cases hroom : st.q.occupied < 63
    · obtain ⟨hpush, hcont, hv', _⟩ := key_queue_push_spec p st.q hv (by
        simpa [PUSBKB_QUEUE_LEN] using hroom)
      refine ⟨?_, ?_, ?_⟩ <;>
        simp only [sysStep, hpush, if_true]
      · exact hv'
      · simp [hcont, horder]
      · exact hsub
    · have hocc : st.q.occupied = 63 := by omega
      have hfull : key_queue_push p st.q = (false, st.q) :=
        key_queue_push_full p st.q hv (by simpa [PUSBKB_QUEUE_LEN] using hocc)
      simpa [sysStep, hfull] using ⟨hv, horder, hsub⟩
  | pop =>
    obtain ⟨hp1, hp2, hp3⟩ := key_queue_pop_spec st.q hv
    match hpop : key_queue_pop st.q with
    | (none, q') =>
      simpa [sysStep, hpop] using ⟨hv, horder, hsub⟩
    | (some x, q') =>
      have hx : st.q.contents.head? = some x := by rw [← hp1, hpop]
      obtain ⟨rest, hrest⟩ : ∃ rest, st.q.contents = x :: rest := by
        cases hc : st.q.contents with
        | nil => rw [hc] at hx; simp at hx
        | cons y ys =>
          rw [hc] at hx
          simp only [List.head?_cons, Option.some.injEq] at hx
          exact ⟨ys, by rw [hx]⟩
      have hq' : q' = (key_queue_pop st.q).2 := by rw [hpop]
      refine ⟨?_, ?_, ?_⟩ <;>
        simp only [sysStep, hpop]
      · rw [hq']; exact hp3
      · rw [hq', hp2, horder, hrest]
        simp
      · exact hsub.trans (List.sublist_append_left _ _)
  | drain oracle =>
    simp only [sysStep]
    induction oracle generalizing st with
    | nil => exact ⟨hv, horder, hsub⟩
    | cons e rest ih =>
      obtain ⟨wready, sendOk⟩ := e
      by_cases hw : wready = false
      · simpa [core0_drain_queue_to_fifo, hw] using ⟨hv, horder, hsub⟩
      · obtain ⟨hp1, hp2, hp3⟩ := key_queue_pop_spec st.q hv
        match hpop : key_queue_pop st.q with
        | (none, q') =>
          simpa [core0_drain_queue_to_fifo, hw, hpop] using ⟨hv, horder, hsub⟩
        | (some x, q') =>
          have hx : st.q.contents.head? = some x := by rw [← hp1, hpop]
          obtain ⟨rest', hrest'⟩ : ∃ rest', st.q.contents = x :: rest' := by
            cases hc : st.q.contents with
            | nil => rw [hc] at hx; simp at hx
            | cons y ys =>
              rw [hc] at hx
              simp only [List.head?_cons, Option.some.injEq] at hx
              exact ⟨ys, by rw [hx]⟩
          have hq' : q' = (key_queue_pop st.q).2 := by rw [hpop]
          by_cases hs : sendOk = true
          · simp only [core0_drain_queue_to_fifo, hw, if_false, hpop, hs, if_true]
            apply ih
            · rw [hq']; exact hp3
            · simp only
              rw [hq', hp2, horder, hrest']
              simp
            · simpa using hsub.append (List.Sublist.refl [x])
          · have hs' : sendOk = false := by
              cases sendOk
              · rfl
              · exact absurd rfl hs
            refine ⟨?_, ?_, ?_⟩ <;>
              simp only [core0_drain_queue_to_fifo, hw, if_false, hpop, hs',
                Bool.false_eq_true, Bool.true_eq_false, ite_false]
            · rw [hq']; exact hp3
            · rw [hq', hp2, horder, hrest']
              simp
            · exact hsub.trans (List.sublist_append_left _ _)

theorem sysRun_preserves (ops : List SysOp) (st : SysState) (hinv : SysInv st) :
    SysInv (sysRun ops st) := by
  induction ops generalizing st with
  | nil => exact hinv
  | cons op rest ih => exact ih _ (sysStep_preserves st op hinv)

/-- C2: over any interleaving of pushes (successful or failed), pops and FIFO
drains starting from the empty queue, the popped sequence extends to the
accepted-push sequence (pop returns packets exactly in push order), and the
sequence delivered to core1 is an order-preserving subsequence of the popped
(hence of the accepted) sequence: a packet dropped on a FIFO send timeout is
never re-queued, and no packet is ever delivered before an earlier-decoded
one. -/
theorem sysRun_ordering (ops : List SysOp) :
    (sysRun ops SysState.start).pushedOK =
      (sysRun ops SysState.start).popped ++ (sysRun ops SysState.start).q.contents ∧
    (sysRun ops SysState.start).delivered.Sublist (sysRun ops SysState.start).popped ∧
    (sysRun ops SysState.start).delivered.Sublist (sysRun ops SysState.start).pushedOK := by
  have hstart : SysInv SysState.start := by
    refine ⟨⟨?_, ?_⟩, ?_, ?_⟩ <;>
      simp [SysState.start, KeyQueue.start, PUSBKB_QUEUE_LEN, KeyQueue.contents,
        KeyQueue.occupied]
  obtain ⟨hv, horder, hsub⟩ := sysRun_preserves ops SysState.start hstart
  refine ⟨horder, hsub, ?_⟩
  rw [horder]
  exact hsub.trans (List.sublist_append_left _ _)

/-! ## CDC receive state and the frame decoder (main.c lines 302-309, 355-429)

`cdc_rx_state_t` with its 2-byte frame accumulator: first byte of a frame is
the keycode, second the modifier.  Times are in microseconds; `absolute_time_t`
differences are signed, embedded as `Int` subtraction. -/

structure CdcRxState where
  was_connected : Bool
  have_keycode : Bool
  pending_keycode : Nat
  dropped_queue : Nat
  last_rx_time : Nat
  last_rx_time_valid : Bool

/-- Embedding of `cdc_rx_state_t cdc_rx_state = {0}` (main.c line 468). -/
def CdcRxState.start : CdcRxState := ⟨false, false, 0, 0, 0, false⟩

/-- Embedding of `core0_update_cdc_state` (main.c lines 355-374).  `connected` is the value
of `tud_cdc_connected()`, `now_us` the value of `get_absolute_time()` in
microseconds. -/
def core0_update_cdc_state (connected : Bool) (now_us : Nat) (s : CdcRxState) :
    CdcRxState :=
  let s1 := if s.was_connected = true ∧ connected = false then
      -- Drop partial packets on disconnect to avoid stale pairing later.
      { s with have_keycode := false, pending_keycode := 0,
               last_rx_time_valid := false }
    else s
  let s2 := { s1 with was_connected := connected }
  if s2.have_keycode = true ∧ s2.last_rx_time_valid = true ∧
      (200000 : Int) < (now_us : Int) - (s2.last_rx_time : Int) then
    -- If a second byte never arrives, discard the pending keycode.
    { s2 with have_keycode := false, pending_keycode := 0,
              last_rx_time_valid := false }
  else s2

/-- One iteration of the byte-decoding loop of `core0_handle_cdc_input`
(main.c lines 408-428): byte values are stored into `uint8_t` fields, hence
the `% 256`. -/
def cdc_process_byte (sq : CdcRxState × KeyQueue) (b : Nat) :
    CdcRxState × KeyQueue :=
  if sq.1.have_keycode = false then
    ({ sq.1 with pending_keycode := b % 256, have_keycode := true }, sq.2)
  else
    let modifier := b % 256
    let packed := sq.1.pending_keycode + modifier * 256
    if sq.1.pending_keycode ≠ 0 then
      let r := key_queue_push packed sq.2
      if r.1 = false then
        ({ sq.1 with dropped_queue := sq.1.dropped_queue + 1,
                     have_keycode := false }, r.2)
      else
        ({ sq.1 with have_keycode := false }, r.2)
    else
      ({ sq.1 with have_keycode := false }, sq.2)

def cdc_process_bytes (sq : CdcRxState × KeyQueue) (bytes : List Nat) :
    CdcRxState × KeyQueue :=
  bytes.foldl cdc_process_byte sq

/-- One call of `core0_handle_cdc_input` (main.c lines 376-429) processing the
bytes actually returned by `tud_cdc_read`: when at least one byte was read,
`last_rx_time` is refreshed, then every byte runs through the decoding loop.
(The read-length clamp against queue free space only determines how the CDC
stream is cut into chunks; it never drops or reorders bytes.) -/
def cdc_feed (sq : CdcRxState × KeyQueue) (now_us : Nat) (bytes : List Nat) :
    CdcRxState × KeyQueue :=
  let sq1 := if bytes.length ≠ 0 then
      ({ sq.1 with last_rx_time := now_us, last_rx_time_valid := true }, sq.2)
    else sq
  cdc_process_bytes sq1 bytes

def cdc_feed_chunks (sq : CdcRxState × KeyQueue)
    (chunks : List (Nat × List Nat)) : CdcRxState × KeyQueue :=
  chunks.foldl (fun acc tc => cdc_feed acc tc.1 tc.2) sq

/-- The decode-relevant observation of the handler state: everything except
the `last_rx_time` timestamp (which records when the last byte arrived, and
differs between chunked and contiguous feeding without affecting decoding). -/
structure CdcDecodeObs where
  have_keycode : Bool
  pending_keycode : Nat
  dropped_queue : Nat
  was_connected : Bool
  q : KeyQueue

def cdcObs (sq : CdcRxState × KeyQueue) : CdcDecodeObs :=
  ⟨sq.1.have_keycode, sq.1.pending_keycode, sq.1.dropped_queue,
   sq.1.was_connected, sq.2⟩

/-- The action of one decoded byte on the observation. -/
def cdcObsStep (o : CdcDecodeObs) (b : Nat) : CdcDecodeObs :=
  if o.have_keycode = false then
    { o with pending_keycode := b % 256, have_keycode := true }
  else
    let packed := o.pending_keycode + (b % 256) * 256
    if o.pending_keycode ≠ 0 then
      let r := key_queue_push packed o.q
      if r.1 = false then
        { o with dropped_queue := o.dropped_queue + 1, have_keycode := false,
                 q := r.2 }
      else
        { o with have_keycode := false, q := r.2 }
    else
      { o with have_keycode := false }

theorem cdcObs_process_byte (sq : CdcRxState × KeyQueue) (b : Nat) :
    cdcObs (cdc_process_byte sq b) = cdcObsStep (cdcObs sq) b := by
  obtain ⟨s, q⟩ := sq
  simp only [cdc_process_byte, cdcObsStep, cdcObs]
  split_ifs <;> rfl

theorem cdcObs_process_bytes (sq : CdcRxState × KeyQueue) (bytes : List Nat) :
    cdcObs (cdc_process_bytes sq bytes) =
      bytes.foldl cdcObsStep (cdcObs sq) := by
  induction bytes generalizing sq with
  | nil => rfl
  | cons b rest ih =>
    have hstep : cdc_process_bytes sq (b :: rest) =
        cdc_process_bytes (cdc_process_byte sq b) rest := rfl
    rw [hstep, ih, List.foldl_cons, cdcObs_process_byte]

theorem cdcObs_feed (sq : CdcRxState × KeyQueue) (t : Nat) (bytes : List Nat) :
    cdcObs (cdc_feed sq t bytes) = bytes.foldl cdcObsStep (cdcObs sq) := by
  unfold cdc_feed
  rw [cdcObs_process_bytes]
  congr 1
  split
  · rfl
  · rfl

/-- C5: split invariance of frame decoding.  Feeding any chunking of a byte
stream through successive handler calls (with no intervening timeout tick or
disconnect) leaves the decoder and the packet queue in the same observable
state - in particular it enqueues exactly the same packet sequence - as
feeding the whole stream in one call, whatever the per-call timestamps are. -/
theorem cdc_split_invariance (sq : CdcRxState × KeyQueue)
    (chunks : List (Nat × List Nat)) (t : Nat) :
    cdcObs (cdc_feed_chunks sq chunks) =
      cdcObs (cdc_feed sq t (chunks.map Prod.snd).flatten) ∧
    (cdc_feed_chunks sq chunks).2 =
      (cdc_feed sq t (chunks.map Prod.snd).flatten).2 := by
  have main : ∀ (cs : List (Nat × List Nat)) (sq0 : CdcRxState × KeyQueue),
      cdcObs (cdc_feed_chunks sq0 cs) =
        ((cs.map Prod.snd).flatten).foldl cdcObsStep (cdcObs sq0) := by
    intro cs
    induction cs with
    | nil =>
      intro sq0
      simp [cdc_feed_chunks]
    | cons c rest ih =>
      intro sq0
      have hstep : cdc_feed_chunks sq0 (c :: rest) =
          cdc_feed_chunks (cdc_feed sq0 c.1 c.2) rest := rfl
      rw [hstep, ih, List.map_cons, List.flatten_cons, List.foldl_append,
        cdcObs_feed]
  have hobs := (main chunks sq).trans (cdcObs_feed sq t _).symm
  refine ⟨hobs, ?_⟩
  exact congrArg CdcDecodeObs.q hobs

/-- C10: on a connected-to-disconnected transition the pending first byte of a
partial frame is discarded (flag cleared, keycode zeroed, timestamp
invalidated), so the next byte decoded is treated as the first byte of a new
frame and never completes a pre-disconnect pair: it pushes nothing into the
queue. -/
theorem cdc_disconnect_discard (s : CdcRxState) (now m : Nat) (q : KeyQueue)
    (hwc : s.was_connected = true) :
    (core0_update_cdc_state false now s).have_keycode = false ∧
    (core0_update_cdc_state false now s).pending_keycode = 0 ∧
    (core0_update_cdc_state false now s).last_rx_time_valid = false ∧
    (core0_update_cdc_state false now s).was_connected = false ∧
    (cdc_process_byte (core0_update_cdc_state false now s, q) m).2 = q ∧
    (cdc_process_byte (core0_update_cdc_state false now s, q) m).1.pending_keycode
      = m % 256 ∧
    (cdc_process_byte (core0_update_cdc_state false now s, q) m).1.have_keycode
      = true := by
  have hupd : core0_update_cdc_state false now s =
      { s with have_keycode := false, pending_keycode := 0,
               last_rx_time_valid := false, was_connected := false } := by
    simp [core0_update_cdc_state, hwc]
  rw [hupd]
  refine ⟨rfl, rfl, rfl, rfl, ?_, ?_, ?_⟩ <;>
    simp [cdc_process_byte]

/-- Witness for C10. -/
theorem cdc_disconnect_discard_witness :
    (CdcRxState.mk true true 55 0 100 true).was_connected = true ∧
    ((core0_update_cdc_state false 999 (CdcRxState.mk true true 55 0 100 true)).have_keycode
        = false ∧
      (core0_update_cdc_state false 999 (CdcRxState.mk true true 55 0 100 true)).pending_keycode
        = 0 ∧
      (core0_update_cdc_state false 999 (CdcRxState.mk true true 55 0 100 true)).last_rx_time_valid
        = false ∧
      (core0_update_cdc_state false 999 (CdcRxState.mk true true 55 0 100 true)).was_connected
        = false ∧
      (cdc_process_byte
        (core0_update_cdc_state false 999 (CdcRxState.mk true true 55 0 100 true),
          KeyQueue.start) 7).2 = KeyQueue.start ∧
      (cdc_process_byte
        (core0_update_cdc_state false 999 (CdcRxState.mk true true 55 0 100 true),
          KeyQueue.start) 7).1.pending_keycode = 7 % 256 ∧
      (cdc_process_byte
        (core0_update_cdc_state false 999 (CdcRxState.mk true true 55 0 100 true),
          KeyQueue.start) 7).1.have_keycode = true) :=
  ⟨rfl, cdc_disconnect_discard (CdcRxState.mk true true 55 0 100 true) 999 7
    KeyQueue.start rfl⟩

/-! ## Core1: HID report emission (main.c lines 212-227 and 276-295) -/

/-- Embedding of `hid_keyboard_report_t`: modifier byte plus six keycode slots (the
reserved byte is constant 0 and omitted). -/
structure HidKeyboardReport where
  modifier : Nat
  keycode : List Nat
  deriving DecidableEq, Repr

/-- Embedding of `hid_keyboard_report_t release = {0}` - the all-zero "keys up" report. -/
def hid_report_zero : HidKeyboardReport := ⟨0, [0, 0, 0, 0, 0, 0]⟩

/-- Embedding of `pio_send_key` (main.c lines 212-227): when the PIO USB device and HID
endpoint are up (`dev_ready`, both pointers non-NULL inside core1's service
loop), transmit the "key down" report, then the all-zero "key up" report.
The returned list is the sequence of reports written to the endpoint. -/
def pio_send_key (dev_ready : Bool) (keycode modifier : Nat) :
    List HidKeyboardReport :=
  if dev_ready = false then []
  else [⟨modifier, [keycode, 0, 0, 0, 0, 0]⟩, hid_report_zero]

/-- The body of core1's FIFO-consuming loop for one packed word (main.c lines
284-294): unpack keycode and modifier, skip zero keycodes, emit otherwise. -/
def core1_consume_word (dev_ready : Bool) (packed : Nat) :
    List HidKeyboardReport :=
  let keycode := packed % 256
  let modifier := packed / 256 % 256
  if keycode ≠ 0 then pio_send_key dev_ready keycode modifier else []

/-- core1's inner `while (multicore_fifo_rvalid())` loop over a batch of
packed words, concatenating the emitted reports in order. -/
def core1_consume_words (dev_ready : Bool) : List Nat → List HidKeyboardReport
  | [] => []
  | w :: ws => core1_consume_word dev_ready w ++ core1_consume_words dev_ready ws

theorem core1_consume_words_append (dev_ready : Bool) (ws1 ws2 : List Nat) :
    core1_consume_words dev_ready (ws1 ++ ws2) =
      core1_consume_words dev_ready ws1 ++ core1_consume_words dev_ready ws2 := by
  induction ws1 with
  | nil => rfl
  | cons w rest ih =>
    simp only [List.cons_append, core1_consume_words, List.append_eq, ih,
      List.append_assoc]

/-- C1: every packet with non-zero keycode consumed by core1 produces exactly
one non-zero keyboard report (its keycode in slot 0, its modifier in the
modifier byte) immediately followed by exactly one all-zero report, and in
any batch of consumed words no other report is interleaved between the two. -/
theorem core1_press_release_pair (packed : Nat) (hk : packed % 256 ≠ 0) :
    core1_consume_word true packed =
      [⟨packed / 256 % 256, [packed % 256, 0, 0, 0, 0, 0]⟩, hid_report_zero] ∧
    HidKeyboardReport.mk (packed / 256 % 256) [packed % 256, 0, 0, 0, 0, 0]
      ≠ hid_report_zero ∧
    (∀ pre post : List Nat,
      core1_consume_words true (pre ++ packed :: post) =
        core1_consume_words true pre ++
          ([⟨packed / 256 % 256, [packed % 256, 0, 0, 0, 0, 0]⟩, hid_report_zero]
            ++ core1_consume_words true post)) := by
  have h1 : core1_consume_word true packed =
      [⟨packed / 256 % 256, [packed % 256, 0, 0, 0, 0, 0]⟩, hid_report_zero] := by
    simp [core1_consume_word, pio_send_key, hk]
  refine ⟨h1, ?_, ?_⟩
  · intro h
    rw [HidKeyboardReport.mk.injEq] at h
    simp only [hid_report_zero] at h
    exact hk (by simpa using h.2)
  · intro pre post
    rw [core1_consume_words_append]
    have h2 : core1_consume_words true (packed :: post) =
        core1_consume_word true packed ++ core1_consume_words true post := rfl
    rw [h2, h1]

/-- Witness for C1 at the packed word `516` (keycode 4, modifier 2). -/
theorem core1_press_release_pair_witness :
    (516 : Nat) % 256 ≠ 0 ∧
    (core1_consume_word true 516 =
        [⟨516 / 256 % 256, [516 % 256, 0, 0, 0, 0, 0]⟩, hid_report_zero] ∧
      HidKeyboardReport.mk (516 / 256 % 256) [516 % 256, 0, 0, 0, 0, 0]
        ≠ hid_report_zero ∧
      (∀ pre post : List Nat,
        core1_consume_words true (pre ++ 516 :: post) =
          core1_consume_words true pre ++
            ([⟨516 / 256 % 256, [516 % 256, 0, 0, 0, 0, 0]⟩, hid_report_zero]
              ++ core1_consume_words true post))) :=
  ⟨by decide, core1_press_release_pair 516 (by decide)⟩

/-- C7: a completed 2-byte frame whose keycode byte is 0 consumes the modifier
byte but enqueues nothing (queue and drop counter untouched) and the word it
would encode yields no HID report on core1; a frame with non-zero keycode
offers a packet to the queue that carries exactly that keycode and that
modifier. -/
theorem cdc_zero_keycode_claim (s : CdcRxState) (q : KeyQueue) (m : Nat)
    (hhk : s.have_keycode = true) (hp : s.pending_keycode < 256) :
    (s.pending_keycode = 0 →
      (cdc_process_byte (s, q) m).2 = q ∧
      (cdc_process_byte (s, q) m).1.have_keycode = false ∧
      (cdc_process_byte (s, q) m).1.dropped_queue = s.dropped_queue ∧
      core1_consume_word true ((m % 256) * 256) = []) ∧
    (s.pending_keycode ≠ 0 →
      (cdc_process_byte (s, q) m).2 =
        (key_queue_push (s.pending_keycode + (m % 256) * 256) q).2 ∧
      (s.pending_keycode + (m % 256) * 256) % 256 = s.pending_keycode ∧
      (s.pending_keycode + (m % 256) * 256) / 256 % 256 = m % 256) := by
  constructor
  · intro h0
    refine ⟨?_, ?_, ?_, ?_⟩ <;>
      simp [cdc_process_byte, hhk, h0, core1_consume_word, Nat.mul_mod_left]
  · intro hnz
    have hmod : (s.pending_keycode + (m % 256) * 256) % 256 = s.pending_keycode := by
      omega
    have hdiv : (s.pending_keycode + (m % 256) * 256) / 256 % 256 = m % 256 := by
      have hm : m % 256 < 256 := Nat.mod_lt _ (by omega)
      omega
    refine ⟨?_, hmod, hdiv⟩
    simp only [cdc_process_byte, hhk, Bool.true_eq_false, if_false, ite_false,
      hnz, if_true, ite_true, ne_eq, not_false_eq_true]
    split <;> rfl

/-- Witness for C7 with pending keycode 9 and modifier byte 2. -/
theorem cdc_zero_keycode_claim_witness :
    (CdcRxState.mk true true 9 0 0 false).have_keycode = true ∧
    (CdcRxState.mk true true 9 0 0 false).pending_keycode < 256 ∧
    (((CdcRxState.mk true true 9 0 0 false).pending_keycode = 0 →
      (cdc_process_byte (CdcRxState.mk true true 9 0 0 false, KeyQueue.start) 2).2
        = KeyQueue.start ∧
      (cdc_process_byte (CdcRxState.mk true true 9 0 0 false, KeyQueue.start) 2).1.have_keycode
        = false ∧
      (cdc_process_byte (CdcRxState.mk true true 9 0 0 false, KeyQueue.start) 2).1.dropped_queue
        = (CdcRxState.mk true true 9 0 0 false).dropped_queue ∧
      core1_consume_word true ((2 % 256) * 256) = []) ∧
    ((CdcRxState.mk true true 9 0 0 false).pending_keycode ≠ 0 →
      (cdc_process_byte (CdcRxState.mk true true 9 0 0 false, KeyQueue.start) 2).2 =
        (key_queue_push ((CdcRxState.mk true true 9 0 0 false).pending_keycode
          + (2 % 256) * 256) KeyQueue.start).2 ∧
      ((CdcRxState.mk true true 9 0 0 false).pending_keycode + (2 % 256) * 256) % 256
        = (CdcRxState.mk true true 9 0 0 false).pending_keycode ∧
      ((CdcRxState.mk true true 9 0 0 false).pending_keycode + (2 % 256) * 256) / 256 % 256
        = 2 % 256)) :=
  ⟨rfl, by decide,
    cdc_zero_keycode_claim (CdcRxState.mk true true 9 0 0 false) KeyQueue.start 2
      rfl (by decide)⟩

/-- C6: if the decoder holds a pending first byte and more than 200 ms have
elapsed since it arrived, the periodic state update discards it (flag cleared,
keycode zeroed, timestamp invalidated) without emitting anything, and a
complete 2-byte frame fed afterwards decodes exactly as from the pristine
start state: the queue receives exactly the packet of that frame. -/
theorem cdc_timeout_discard (s : CdcRxState) (now k m : Nat) (q : KeyQueue)
    (hhk : s.have_keycode = true) (hvld : s.last_rx_time_valid = true)
    (hage : (200000 : Int) < (now : Int) - (s.last_rx_time : Int)) :
    (core0_update_cdc_state true now s).have_keycode = false ∧
    (core0_update_cdc_state true now s).pending_keycode = 0 ∧
    (core0_update_cdc_state true now s).last_rx_time_valid = false ∧
    (cdc_process_bytes (core0_update_cdc_state true now s, q) [k, m]).2 =
      (cdc_process_bytes (CdcRxState.start, q) [k, m]).2 ∧
    (cdc_process_bytes (core0_update_cdc_state true now s, q) [k, m]).1.have_keycode =
      (cdc_process_bytes (CdcRxState.start, q) [k, m]).1.have_keycode ∧
    (cdc_process_bytes (core0_update_cdc_state true now s, q) [k, m]).1.pending_keycode =
      (cdc_process_bytes (CdcRxState.start, q) [k, m]).1.pending_keycode ∧
    (k % 256 ≠ 0 →
      (cdc_process_bytes (core0_update_cdc_state true now s, q) [k, m]).2 =
        (key_queue_push (k % 256 + (m % 256) * 256) q).2) := by
  have hupd : core0_update_cdc_state true now s =
      { s with have_keycode := false, pending_keycode := 0,
               last_rx_time_valid := false, was_connected := true } := by
    simp [core0_update_cdc_state, hhk, hvld, hage]
  rw [hupd]
  have hrun : ∀ s0 : CdcRxState, s0.have_keycode = false →
      (cdc_process_bytes (s0, q) [k, m]).2 =
        (if k % 256 ≠ 0 then (key_queue_push (k % 256 + (m % 256) * 256) q).2 else q) ∧
      (cdc_process_bytes (s0, q) [k, m]).1.have_keycode = false ∧
      (cdc_process_bytes (s0, q) [k, m]).1.pending_keycode = k % 256 := by
    intro s0 h0
    have hb1 : cdc_process_byte (s0, q) k =
        ({ s0 with pending_keycode := k % 256, have_keycode := true }, q) := by
      simp [cdc_process_byte, h0]
    have hchain : cdc_process_bytes (s0, q) [k, m] =
        cdc_process_byte (cdc_process_byte (s0, q) k) m := rfl
    rw [hchain, hb1]
    by_cases hk0 : k % 256 = 0
    · simp [cdc_process_byte, hk0]
    · simp only [cdc_process_byte, hk0, ne_eq, not_false_eq_true, if_true,
        ite_true, Bool.true_eq_false, if_false, ite_false]
      split <;> simp [hk0]
  obtain ⟨ha1, ha2, ha3⟩ := hrun
    { s with have_keycode := false, pending_keycode := 0,
             last_rx_time_valid := false, was_connected := true } rfl
  obtain ⟨hb1, hb2, hb3⟩ := hrun CdcRxState.start rfl
  refine ⟨rfl, rfl, rfl, ?_, ?_, ?_, ?_⟩
  · rw [ha1, hb1]
  · rw [ha2, hb2]
  · rw [ha3, hb3]
  · intro hknz
    rw [ha1, if_pos hknz]

/-- Witness for C6: pending byte aged 300 ms, then the frame `[4, 2]`. -/
theorem cdc_timeout_discard_witness :
    (CdcRxState.mk true true 9 0 100 true).have_keycode = true ∧
    (CdcRxState.mk true true 9 0 100 true).last_rx_time_valid = true ∧
    (200000 : Int) < ((300100 : Nat) : Int)
      - (((CdcRxState.mk true true 9 0 100 true).last_rx_time : Nat) : Int) ∧
    ((core0_update_cdc_state true 300100 (CdcRxState.mk true true 9 0 100 true)).have_keycode
        = false ∧
      (core0_update_cdc_state true 300100 (CdcRxState.mk true true 9 0 100 true)).pending_keycode
        = 0 ∧
      (core0_update_cdc_state true 300100 (CdcRxState.mk true true 9 0 100 true)).last_rx_time_valid
        = false ∧
      (cdc_process_bytes
          (core0_update_cdc_state true 300100 (CdcRxState.mk true true 9 0 100 true),
            KeyQueue.start) [4, 2]).2 =
        (cdc_process_bytes (CdcRxState.start, KeyQueue.start) [4, 2]).2 ∧
      (cdc_process_bytes
          (core0_update_cdc_state true 300100 (CdcRxState.mk true true 9 0 100 true),
            KeyQueue.start) [4, 2]).1.have_keycode =
        (cdc_process_bytes (CdcRxState.start, KeyQueue.start) [4, 2]).1.have_keycode ∧
      (cdc_process_bytes
          (core0_update_cdc_state true 300100 (CdcRxState.mk true true 9 0 100 true),
            KeyQueue.start) [4, 2]).1.pending_keycode =
        (cdc_process_bytes (CdcRxState.start, KeyQueue.start) [4, 2]).1.pending_keycode ∧
      ((4 : Nat) % 256 ≠ 0 →
        (cdc_process_bytes
            (core0_update_cdc_state true 300100 (CdcRxState.mk true true 9 0 100 true),
              KeyQueue.start) [4, 2]).2 =
          (key_queue_push (4 % 256 + (2 % 256) * 256) KeyQueue.start).2)) :=
  ⟨rfl, rfl, by decide,
    cdc_timeout_discard (CdcRxState.mk true true 9 0 100 true) 300100 4 2
      KeyQueue.start rfl rfl (by decide)⟩

/-! ## Liveness monitor (main.c lines 74-81, 312-330, 444-452)

`core1_is_healthy` reads the `core1_initialized` flag (embedded as
`core1_inited`) and the heartbeat timestamp `core1_last_seen_us`;
`core0_pet_watchdog_if_healthy` calls `watchdog_update()` exactly when it
returns true.  `time_us_32()` values are `uint32_t`; for arguments below
`2^32` the C wraparound subtraction `now - last_seen` equals
`(now + 2^32 - last_seen) % 2^32`. -/

def CORE1_HEALTH_TIMEOUT_US : Nat := 5000000

/-- Embedding of `core1_is_healthy` (main.c lines 312-322). -/
def core1_is_healthy (core1_inited : Bool) (core1_last_seen_us now : Nat) :
    Bool :=
  if core1_inited = false then
    -- Core1 has not finished init yet; give it time during startup.
    true
  else
    decide ((now + 4294967296 - core1_last_seen_us) % 4294967296
      < CORE1_HEALTH_TIMEOUT_US)

/-- Embedding of `core0_pet_watchdog_if_healthy` (main.c lines 324-330): returns whether
`watchdog_update()` is invoked on this service iteration. -/
def core0_pet_watchdog_if_healthy (core1_inited : Bool)
    (core1_last_seen_us now : Nat) : Bool :=
  core1_is_healthy core1_inited core1_last_seen_us now

/-- The petting policy as claim C4 words it, for comparison against the code:
refuse to refresh when the wraparound-safe elapsed time exceeds the 5 s
window, or when core1 has not completed its startup handshake within the
200 ms startup timeout (`us_since_boot` microseconds since the supervising
loop started waiting). -/
def claimC4_pet_policy (core1_inited : Bool)
    (us_since_boot core1_last_seen_us now : Nat) : Bool :=
  if core1_inited = false then
    decide (us_since_boot ≤ 200000)
  else
    decide ((now + 4294967296 - core1_last_seen_us) % 4294967296 < 5000000)

/-- Counterexample to C4 as stated: 1000 s after boot, with core1 still not
having completed its startup handshake (far beyond the 200 ms startup
timeout) and no heartbeat ever recorded, the code still pets the watchdog,
while the claim says core0 refuses to refresh it.  In the code the 200 ms
startup timeout (main.c lines 445-452) only produces an error log and never
influences `core1_is_healthy`. -/
theorem watchdog_startup_counterexample :
    core0_pet_watchdog_if_healthy false 0 1000000000 = true ∧
    claimC4_pet_policy false 1000000000 0 1000000000 = false := by
  constructor
  · rfl
  · decide

/-- C4 (amended): core0 refreshes the watchdog on a service iteration if and
only if core1 is considered healthy, i.e. core1 has not yet completed its
startup handshake (tolerated indefinitely - the 200 ms startup timeout only
triggers an error log in `main`, never a refusal to pet) or the
wraparound-safe elapsed time since core1's last heartbeat is below the 5 s
unhealthy window. -/
theorem watchdog_pet_iff_healthy (core1_inited : Bool)
    (core1_last_seen_us now : Nat) (hlast : core1_last_seen_us < 4294967296)
    (hnow : now < 4294967296) :
    core0_pet_watchdog_if_healthy core1_inited core1_last_seen_us now = true ↔
      (core1_inited = false ∨
        (now + 4294967296 - core1_last_seen_us) % 4294967296 < 5000000) := by
  cases core1_inited with
  | false =>
    simp [core0_pet_watchdog_if_healthy, core1_is_healthy]
  | true =>
    simp [core0_pet_watchdog_if_healthy, core1_is_healthy,
      CORE1_HEALTH_TIMEOUT_US]

/-- Witness for the amended C4: a healthy post-handshake core1 heartbeat 1 ms
old gets the watchdog petted. -/
theorem watchdog_pet_iff_healthy_witness :
    (1000 : Nat) < 4294967296 ∧ (2000 : Nat) < 4294967296 ∧
    (core0_pet_watchdog_if_healthy true 1000 2000 = true ↔
      ((true = false) ∨
        (2000 + 4294967296 - 1000) % 4294967296 < 5000000)) :=
  ⟨by decide, by decide,
    watchdog_pet_iff_healthy true 1000 2000 (by decide) (by decide)⟩

/-! ## CDC log ring buffer (keyemu_log.c)

The 8192-byte ring `log_buffer` with `log_head`/`log_tail`, the dropped-bytes
counter and the `log_initialized` flag (embedded as `inited`).  The spin lock
only serializes the O(1) index updates and has no observable effect in this
sequential embedding. -/

def KEYEMU_LOG_BUFFER_SIZE : Nat := 8192

structure LogState where
  buf : Nat → Nat
  head : Nat
  tail : Nat
  dropped : Nat
  inited : Bool

def LogState.Valid (s : LogState) : Prop :=
  s.head < KEYEMU_LOG_BUFFER_SIZE ∧ s.tail < KEYEMU_LOG_BUFFER_SIZE

/-- Embedding of `log_free_space` (keyemu_log.c lines 37-42). -/
def log_free_space (s : LogState) : Nat :=
  if s.head ≥ s.tail then
    KEYEMU_LOG_BUFFER_SIZE - (s.head - s.tail) - 1
  else
    (s.tail - s.head) - 1

/-- One iteration of the copying loop of `keyemu_log_write` (keyemu_log.c
lines 57-60): `log_buffer[log_head] = (uint8_t)data[i]` and head advance. -/
def log_write1 (b : Nat) (s : LogState) : LogState :=
  { s with buf := fun j => if j = s.head then b % 256 else s.buf j,
           head := (s.head + 1) % KEYEMU_LOG_BUFFER_SIZE }

/-- Embedding of `keyemu_log_write` (keyemu_log.c lines 44-63): clamp the length to the
free space, account the cut-off tail in `log_dropped_bytes`, copy the prefix
that fits. -/
def keyemu_log_write (data : List Nat) (s : LogState) : LogState :=
  if data.length = 0 ∨ s.inited = false then s
  else
    let free := log_free_space s
    let s1 := if data.length > free then
        { s with dropped := s.dropped + (data.length - free) }
      else s
    (data.take (min data.length free)).foldl (fun t b => log_write1 b t) s1

def LogState.occupied (s : LogState) : Nat :=
  (s.head + (KEYEMU_LOG_BUFFER_SIZE - s.tail)) % KEYEMU_LOG_BUFFER_SIZE

/-- The buffered bytes in order, oldest first. -/
def LogState.contents (s : LogState) : List Nat :=
  (List.range s.occupied).map
    (fun i => s.buf ((s.tail + i) % KEYEMU_LOG_BUFFER_SIZE))

theorem log_length_contents (s : LogState) :
    s.contents.length = s.occupied := by
  simp [LogState.contents]

theorem log_occupied_lt (s : LogState) :
    s.occupied < KEYEMU_LOG_BUFFER_SIZE :=
  Nat.mod_lt _ (by simp [KEYEMU_LOG_BUFFER_SIZE])

theorem log_free_space_eq (s : LogState) (hv : s.Valid) :
    log_free_space s = KEYEMU_LOG_BUFFER_SIZE - 1 - s.occupied := by
  rcases hv with ⟨hh, ht⟩
  simp only [log_free_space, LogState.occupied, KEYEMU_LOG_BUFFER_SIZE] at *
  split <;> omega

/-- Writing one byte with at least one free slot appends it. -/
theorem log_write1_spec (b : Nat) (s : LogState) (hv : s.Valid)
    (hocc : s.occupied < KEYEMU_LOG_BUFFER_SIZE - 1) :
    (log_write1 b s).contents = s.contents ++ [b % 256] ∧
    (log_write1 b s).Valid ∧
    (log_write1 b s).tail = s.tail ∧
    (log_write1 b s).dropped = s.dropped ∧
    (log_write1 b s).inited = s.inited := by
  rcases hv with ⟨hh, ht⟩
  refine ⟨?_, ⟨?_, ht⟩, rfl, rfl, rfl⟩
  · have hocc' : (log_write1 b s).occupied = s.occupied + 1 := by
      simp only [log_write1, LogState.occupied, KEYEMU_LOG_BUFFER_SIZE] at *
      omega
    simp only [LogState.contents, hocc', List.range_succ, List.map_append]
    congr 1
    · apply List.map_congr_left
      intro i hi
      rw [List.mem_range] at hi
      have htail : (log_write1 b s).tail = s.tail := rfl
      rw [htail]
      have hne : (s.tail + i) % KEYEMU_LOG_BUFFER_SIZE ≠ s.head := by
        simp only [LogState.occupied, KEYEMU_LOG_BUFFER_SIZE] at *
        omega
      simp only [log_write1]
      simp [hne]
    · have heq : (s.tail + s.occupied) % KEYEMU_LOG_BUFFER_SIZE = s.head := by
        simp only [LogState.occupied, KEYEMU_LOG_BUFFER_SIZE] at *
        omega
      simp [log_write1, heq]
  · simp only [log_write1, KEYEMU_LOG_BUFFER_SIZE] at *
    omega

/-- Folding the one-byte write over a list that fits appends its bytes
(reduced mod 256, as the C cast to `uint8_t` does). -/
theorem log_write_fold_spec (l : List Nat) (s : LogState) (hv : s.Valid)
    (hfit : s.occupied + l.length ≤ KEYEMU_LOG_BUFFER_SIZE - 1) :
    (l.foldl (fun t b => log_write1 b t) s).contents
      = s.contents ++ l.map (fun b => b % 256) ∧
    (l.foldl (fun t b => log_write1 b t) s).Valid ∧
    (l.foldl (fun t b => log_write1 b t) s).dropped = s.dropped ∧
    (l.foldl (fun t b => log_write1 b t) s).inited = s.inited := by
  induction l generalizing s with
  | nil => simpa using hv
  | cons b rest ih =>
    have hocc : s.occupied < KEYEMU_LOG_BUFFER_SIZE - 1 := by
      simp only [List.length_cons] at hfit
      omega
    obtain ⟨h1, h2, h3, h4, h5⟩ := log_write1_spec b s hv hocc
    have hocc1 : (log_write1 b s).occupied = s.occupied + 1 := by
      have := log_length_contents (log_write1 b s)
      rw [h1] at this
      simp only [List.length_append, List.length_cons, List.length_nil,
        log_length_contents] at this
      omega
    obtain ⟨ih1, ih2, ih3, ih4⟩ := ih (log_write1 b s) h2 (by
      rw [hocc1]
      simp only [List.length_cons] at hfit
      omega)
    refine ⟨?_, ?_, ?_, ?_⟩
    · simp only [List.foldl_cons, ih1, h1, List.map_cons, List.append_assoc,
        List.singleton_append]
    · simpa only [List.foldl_cons] using ih2
    · simp only [List.foldl_cons]
      rw [ih3, h4]
    · simp only [List.foldl_cons]
      rw [ih4, h5]

/-- C8: `keyemu_log_write` of `n` bytes with `f` bytes free always returns,
appends exactly `min n f` bytes - the prefix of the input - and adds exactly
`n - f` to the dropped-byte counter when `n > f`, leaving it unchanged
otherwise.  (Being a total function, the embedding never blocks by
construction; the C code only holds the spin lock around the O(1) ring index
update, never across any transport write.) -/
theorem keyemu_log_write_spec (data : List Nat) (s : LogState)
    (hv : s.Valid) (hinit : s.inited = true)
    (hbytes : ∀ b ∈ data, b < 256) :
    (keyemu_log_write data s).contents =
      s.contents ++ data.take (min data.length (log_free_space s)) ∧
    (log_free_space s < data.length →
      (keyemu_log_write data s).dropped =
        s.dropped + (data.length - log_free_space s)) ∧
    (data.length ≤ log_free_space s →
      (keyemu_log_write data s).dropped = s.dropped) ∧
    (keyemu_log_write data s).Valid := by
  by_cases hnil : data.length = 0
  · rw [List.length_eq_zero] at hnil
    subst hnil
    refine ⟨by simp [keyemu_log_write], by simp, ?_, ?_⟩
    · intro _
      simp [keyemu_log_write]
    · simpa [keyemu_log_write] using hv
  · have hcond : ¬ (data.length = 0 ∨ s.inited = false) := by
      simp [hnil, hinit]
    have hocclt : s.occupied < KEYEMU_LOG_BUFFER_SIZE := log_occupied_lt s
    have hfe : log_free_space s = KEYEMU_LOG_BUFFER_SIZE - 1 - s.occupied :=
      log_free_space_eq s hv
    have hlsub : ∀ b ∈ data.take (min data.length (log_free_space s)), b < 256 :=
      fun b hb => hbytes b (List.take_subset _ _ hb)
    have hmap : (data.take (min data.length (log_free_space s))).map
        (fun b => b % 256) = data.take (min data.length (log_free_space s)) := by
      have h1 : (data.take (min data.length (log_free_space s))).map
          (fun b => b % 256) =
            (data.take (min data.length (log_free_space s))).map id :=
        List.map_congr_left (fun b hb => by
          simp [Nat.mod_eq_of_lt (hlsub b hb)])
      rw [h1, List.map_id]
    have hllen : (data.take (min data.length (log_free_space s))).length
        ≤ log_free_space s := by
      simp only [List.length_take]
      omega
    by_cases hgt : log_free_space s < data.length
    · have hw : keyemu_log_write data s =
          (data.take (min data.length (log_free_space s))).foldl
            (fun t b => log_write1 b t)
            { s with dropped := s.dropped + (data.length - log_free_space s) } := by
        simp only [keyemu_log_write, if_neg hcond, gt_iff_lt, if_pos hgt]
      obtain ⟨f1, f2, f3, f4⟩ := log_write_fold_spec
        (data.take (min data.length (log_free_space s)))
        { s with dropped := s.dropped + (data.length - log_free_space s) }
        ⟨hv.1, hv.2⟩ (by
          show s.occupied + _ ≤ _
          omega)
      refine ⟨?_, ?_, ?_, ?_⟩
      · rw [hw, f1, hmap]
        rfl
      · intro _
        rw [hw, f3]
      · intro hle
        omega
      · rw [hw]
        exact f2
    · have hw : keyemu_log_write data s =
          (data.take (min data.length (log_free_space s))).foldl
            (fun t b => log_write1 b t) s := by
        simp only [keyemu_log_write, if_neg hcond, gt_iff_lt, if_neg hgt]
      obtain ⟨f1, f2, f3, f4⟩ := log_write_fold_spec
        (data.take (min data.length (log_free_space s))) s hv (by omega)
      refine ⟨?_, ?_, ?_, ?_⟩
      · rw [hw, f1, hmap]
      · intro hlt
        omega
      · intro _
        rw [hw, f3]
      · rw [hw]
        exact f2

/-- Witness for C8: writing `[65, 66]` to an empty, ready buffer. -/
theorem keyemu_log_write_spec_witness :
    (LogState.mk (fun _ => 0) 0 0 0 true).Valid ∧
    (LogState.mk (fun _ => 0) 0 0 0 true).inited = true ∧
    (∀ b ∈ [65, 66], b < 256) ∧
    ((keyemu_log_write [65, 66] (LogState.mk (fun _ => 0) 0 0 0 true)).contents =
      (LogState.mk (fun _ => 0) 0 0 0 true).contents ++
        List.take (min (List.length [65, 66])
          (log_free_space (LogState.mk (fun _ => 0) 0 0 0 true))) [65, 66] ∧
    (log_free_space (LogState.mk (fun _ => 0) 0 0 0 true) < List.length [65, 66] →
      (keyemu_log_write [65, 66] (LogState.mk (fun _ => 0) 0 0 0 true)).dropped =
        (LogState.mk (fun _ => 0) 0 0 0 true).dropped +
          (List.length [65, 66] -
            log_free_space (LogState.mk (fun _ => 0) 0 0 0 true))) ∧
    (List.length [65, 66] ≤ log_free_space (LogState.mk (fun _ => 0) 0 0 0 true) →
      (keyemu_log_write [65, 66] (LogState.mk (fun _ => 0) 0 0 0 true)).dropped =
        (LogState.mk (fun _ => 0) 0 0 0 true).dropped) ∧
    (keyemu_log_write [65, 66] (LogState.mk (fun _ => 0) 0 0 0 true)).Valid) :=
  ⟨⟨by decide, by decide⟩, rfl, by decide,
    keyemu_log_write_spec [65, 66] (LogState.mk (fun _ => 0) 0 0 0 true)
      ⟨by decide, by decide⟩ rfl (by decide)⟩

/-! ## Log flush to CDC TX (keyemu_log.c lines 66-154) -/

/-- Observable CDC TX output of a flush: a chunk of buffered bytes written by
`tud_cdc_write` in `log_flush_available_chunks`, or the single overflow
warning line (carrying the dropped count it reports). -/
inductive OutEvt where
  | chunk (bytes : List Nat)
  | warning (dropped : Nat)
  deriving DecidableEq, Repr

def outChunkBytes : List OutEvt → Nat
  | [] => 0
  | OutEvt.chunk c :: rest => c.length + outChunkBytes rest
  | OutEvt.warning _ :: rest => outChunkBytes rest

def outWarnCount : List OutEvt → Nat
  | [] => 0
  | OutEvt.chunk _ :: rest => outWarnCount rest
  | OutEvt.warning _ :: rest => 1 + outWarnCount rest

theorem outChunkBytes_append (a b : List OutEvt) :
    outChunkBytes (a ++ b) = outChunkBytes a + outChunkBytes b := by
  induction a with
  | nil => simp [outChunkBytes]
  | cons e rest ih =>
    cases e <;> simp [outChunkBytes, ih] <;> omega

theorem outWarnCount_append (a b : List OutEvt) :
    outWarnCount (a ++ b) = outWarnCount a + outWarnCount b := by
  induction a with
  | nil => simp [outWarnCount]
  | cons e rest ih =>
    cases e <;> simp [outWarnCount, ih] <;> omega

/-- Embedding of `log_pop_chunk` (keyemu_log.c lines 66-77): pop up to `maxLen` bytes from
the ring, oldest first. -/
def log_pop_chunk : Nat → LogState → List Nat × LogState
  | 0, s => ([], s)
  | m + 1, s =>
    if s.head = s.tail then ([], s)
    else
      let b := s.buf s.tail
      let s' := { s with tail := (s.tail + 1) % KEYEMU_LOG_BUFFER_SIZE }
      let r := log_pop_chunk m s'
      (b :: r.1, r.2)

theorem log_pop_chunk_len (m : Nat) (s : LogState) :
    (log_pop_chunk m s).1.length ≤ m := by
  induction m generalizing s with
  | zero => simp [log_pop_chunk]
  | succ k ih =>
    by_cases h : s.head = s.tail
    · simp [log_pop_chunk, h]
    · simp only [log_pop_chunk, h, ite_false, List.length_cons]
      exact Nat.succ_le_succ (ih _)

theorem log_pop_chunk_state (m : Nat) (s : LogState) :
    ((log_pop_chunk m s).2.dropped = s.dropped ∧
      (log_pop_chunk m s).2.inited = s.inited) ∧
    (s.Valid → (log_pop_chunk m s).2.Valid) := by
  induction m generalizing s with
  | zero => simp [log_pop_chunk]
  | succ k ih =>
    by_cases h : s.head = s.tail
    · simp [log_pop_chunk, h]
    · simp only [log_pop_chunk, h, ite_false]
      obtain ⟨⟨ih1, ih2⟩, ih3⟩ :=
        ih { s with tail := (s.tail + 1) % KEYEMU_LOG_BUFFER_SIZE }
      refine ⟨⟨by rw [ih1], by rw [ih2]⟩, fun hv => ih3 ⟨hv.1, ?_⟩⟩
      simp only [KEYEMU_LOG_BUFFER_SIZE]
      omega

/-- The loop of `log_flush_available_chunks` (keyemu_log.c lines 120-141),
driven by `available`, the byte count `tud_cdc_write_available()` reports
(each `tud_cdc_write` of `count` bytes decreases it by `count`).  Every
continuing iteration pops at least one byte, so at most `available`
iterations can run; `fuel` bounds the iteration count and the wrapper below
supplies `available + 1`, which the loop can never exhaust
(`log_flush_chunks_go_fuel`). -/
def log_flush_chunks_go : Nat → LogState → Nat → LogState × Nat × List OutEvt
  | 0, s, available => (s, available, [])
  | fuel + 1, s, available =>
    if available = 0 then (s, available, [])
    else
      let maxLen := min 64 available
      let r := log_pop_chunk maxLen s
      if r.1.length = 0 then (r.2, available, [])
      else
        let rest := log_flush_chunks_go fuel r.2 (available - r.1.length)
        (rest.1, rest.2.1, OutEvt.chunk r.1 :: rest.2.2)

def log_flush_available_chunks (s : LogState) (available : Nat) :
    LogState × Nat × List OutEvt :=
  log_flush_chunks_go (available + 1) s available

/-- Any fuel above `available` computes the same result: the fuel bound in
`log_flush_available_chunks` is never the reason the loop stops. -/
theorem log_flush_chunks_go_fuel (fuel1 : Nat) :
    ∀ (fuel2 : Nat) (s : LogState) (available : Nat),
      available < fuel1 → available < fuel2 →
      log_flush_chunks_go fuel1 s available =
        log_flush_chunks_go fuel2 s available := by
  induction fuel1 with
  | zero => intro fuel2 s available h1 _; omega
  | succ k ih =>
    intro fuel2 s available h1 h2
    cases fuel2 with
    | zero => omega
    | succ k2 =>
      by_cases hav : available = 0
      · simp [log_flush_chunks_go, hav]
      · simp only [log_flush_chunks_go, hav, ite_false]
        by_cases hlen : (log_pop_chunk (min 64 available) s).1.length = 0
        · simp [hlen]
        · simp only [hlen, ite_false]
          rw [ih k2 _ _ (by omega) (by omega)]

theorem log_flush_chunks_go_spec (fuel : Nat) :
    ∀ (s : LogState) (available : Nat),
      outChunkBytes (log_flush_chunks_go fuel s available).2.2 ≤ available ∧
      outWarnCount (log_flush_chunks_go fuel s available).2.2 = 0 ∧
      (log_flush_chunks_go fuel s available).1.dropped = s.dropped ∧
      (log_flush_chunks_go fuel s available).1.inited = s.inited ∧
      (s.Valid → (log_flush_chunks_go fuel s available).1.Valid) := by
  induction fuel with
  | zero =>
    intro s available
    simp [log_flush_chunks_go, outChunkBytes, outWarnCount]
  | succ k ih =>
    intro s available
    by_cases hav : available = 0
    · simp [log_flush_chunks_go, hav, outChunkBytes, outWarnCount]
    · simp only [log_flush_chunks_go, hav, ite_false]
      obtain ⟨⟨hd, hi⟩, hvv⟩ := log_pop_chunk_state (min 64 available) s
      by_cases hlen : (log_pop_chunk (min 64 available) s).1.length = 0
      · simp only [hlen, ite_true]
        exact ⟨by simp [outChunkBytes], by simp [outWarnCount], hd, hi, hvv⟩
      · simp only [hlen, ite_false]
        obtain ⟨ih1, ih2, ih3, ih4, ih5⟩ :=
          ih (log_pop_chunk (min 64 available) s).2
            (available - (log_pop_chunk (min 64 available) s).1.length)
        have hle := log_pop_chunk_len (min 64 available) s
        refine ⟨?_, ?_, by rw [ih3, hd], by rw [ih4, hi], fun hv => ih5 (hvv hv)⟩
        · simp only [outChunkBytes]
          omega
        · simp only [outWarnCount]
          exact ih2

/-- Length of the snprintf-formatted overflow warning
`"WARN: log buffer overflow (%u bytes dropped)\r\n"`: 44 characters plus the
decimal digits of the drop count (cast to a 32-bit unsigned), truncated by
snprintf to the 63 bytes that fit the 64-byte buffer. -/
def overflow_warning_len (dropped : Nat) : Nat :=
  min (44 + (Nat.toDigits 10 (dropped % 4294967296)).length) 63

/-- Embedding of `log_emit_overflow_warning` (keyemu_log.c lines 97-118): no-op success
when nothing was dropped; refuse (returning `false`, keeping the counter)
when the CDC TX buffer cannot take the whole warning; otherwise write the
warning and clear the counter. -/
def log_emit_overflow_warning (dropped : Nat) (available : Nat) (s : LogState) :
    Bool × LogState × List OutEvt :=
  if dropped = 0 then (true, s, [])
  else if available < overflow_warning_len dropped then (false, s, [])
  else (true, { s with dropped := 0 }, [OutEvt.warning dropped])

/-- Embedding of `keyemu_log_flush` (keyemu_log.c lines 143-154), with
`log_cdc_ready() = log_initialized && tud_cdc_connected()` and `available`
the value of `tud_cdc_write_available()` at entry.  Returns the final state
and the events written to CDC TX in order: buffered chunks first, then (when
possible) the overflow warning. -/
def keyemu_log_flush (connected : Bool) (available : Nat) (s : LogState) :
    LogState × List OutEvt :=
  if (s.inited && connected) = false then (s, [])
  else
    let dropped := s.dropped
    let r := log_flush_available_chunks s available
    let w := log_emit_overflow_warning dropped r.2.1 r.1
    (w.2.1, r.2.2 ++ w.2.2)

/-- Counterexample to C9 as stated: flushing a ready buffer that holds the
two bytes `"AB"` with a nonzero drop counter emits the buffered content first
and the overflow warning after it, so the warning is not emitted (nor the
counter cleared) before draining buffered normal content:
`keyemu_log_flush` runs `log_flush_available_chunks` before
`log_emit_overflow_warning` (keyemu_log.c lines 148-151). -/
theorem log_flush_warning_order_counterexample :
    (LogState.mk (fun j => if j = 0 then 65 else if j = 1 then 66 else 0)
        2 0 5 true).dropped ≠ 0 ∧
    (LogState.mk (fun j => if j = 0 then 65 else if j = 1 then 66 else 0)
        2 0 5 true).contents = [65, 66] ∧
    (keyemu_log_flush true 100
        (LogState.mk (fun j => if j = 0 then 65 else if j = 1 then 66 else 0)
          2 0 5 true)).2 =
      [OutEvt.chunk [65, 66], OutEvt.warning 5] := by
  refine ⟨by decide, by decide, by decide⟩

/-- C9 (amended): the flush is a no-op unless the sink is ready
(`log_initialized` and CDC connected).  When ready it first drains buffered
content, popping only as many bytes as the sink can currently accept; then,
if the dropped-byte counter was nonzero and the sink can still accept the
whole warning line, it emits exactly one overflow warning after the drained
content and clears the counter; if the warning does not fit, no warning is
emitted and the counter is retained for a later flush. -/
theorem keyemu_log_flush_spec (connected : Bool) (available : Nat)
    (s : LogState) :
    ((s.inited && connected) = false →
      keyemu_log_flush connected available s = (s, [])) ∧
    ((s.inited && connected) = true →
      outChunkBytes (keyemu_log_flush connected available s).2 ≤ available ∧
      (s.dropped = 0 →
        outWarnCount (keyemu_log_flush connected available s).2 = 0 ∧
        (keyemu_log_flush connected available s).1.dropped = 0) ∧
      (s.dropped ≠ 0 →
        (overflow_warning_len s.dropped ≤
            (log_flush_available_chunks s available).2.1 →
          (keyemu_log_flush connected available s).2 =
            (log_flush_available_chunks s available).2.2
              ++ [OutEvt.warning s.dropped] ∧
          outWarnCount (keyemu_log_flush connected available s).2 = 1 ∧
          (keyemu_log_flush connected available s).1.dropped = 0) ∧
        ((log_flush_available_chunks s available).2.1 <
            overflow_warning_len s.dropped →
          outWarnCount (keyemu_log_flush connected available s).2 = 0 ∧
          (keyemu_log_flush connected available s).1.dropped = s.dropped))) := by
  constructor
  · intro hnr
    simp [keyemu_log_flush, hnr]
  · intro hr
    have g1 : outChunkBytes (log_flush_available_chunks s available).2.2
        ≤ available := (log_flush_chunks_go_spec (available + 1) s available).1
    have g2 : outWarnCount (log_flush_available_chunks s available).2.2 = 0 :=
      (log_flush_chunks_go_spec (available + 1) s available).2.1
    have g3 : (log_flush_available_chunks s available).1.dropped = s.dropped :=
      (log_flush_chunks_go_spec (available + 1) s available).2.2.1
    have hflush : keyemu_log_flush connected available s =
        ((log_emit_overflow_warning s.dropped
            (log_flush_available_chunks s available).2.1
            (log_flush_available_chunks s available).1).2.1,
          (log_flush_available_chunks s available).2.2 ++
            (log_emit_overflow_warning s.dropped
              (log_flush_available_chunks s available).2.1
              (log_flush_available_chunks s available).1).2.2) := by
      simp only [keyemu_log_flush, hr, Bool.true_eq_false, ite_false]
    refine ⟨?_, ?_, ?_⟩
    · rw [hflush]
      have hwb : outChunkBytes (log_emit_overflow_warning s.dropped
          (log_flush_available_chunks s available).2.1
          (log_flush_available_chunks s available).1).2.2 = 0 := by
        simp only [log_emit_overflow_warning]
        split_ifs <;> simp [outChunkBytes]
      simp only [outChunkBytes_append, hwb]
      omega
    · intro h0
      have hw : log_emit_overflow_warning s.dropped
          (log_flush_available_chunks s available).2.1
          (log_flush_available_chunks s available).1 =
            (true, (log_flush_available_chunks s available).1, []) := by
        simp only [log_emit_overflow_warning, h0, ite_true]
      rw [hflush, hw]
      constructor
      · simp [outWarnCount_append, outWarnCount, g2]
      · rw [g3, h0]
    · intro h0
      constructor
      · intro hfit
        have hnl : ¬ ((log_flush_available_chunks s available).2.1 <
            overflow_warning_len s.dropped) := by omega
        have hw : log_emit_overflow_warning s.dropped
            (log_flush_available_chunks s available).2.1
            (log_flush_available_chunks s available).1 =
              (true, { (log_flush_available_chunks s available).1 with
                        dropped := 0 }, [OutEvt.warning s.dropped]) := by
          simp only [log_emit_overflow_warning, h0, ite_false]
          rw [if_neg hnl]
        rw [hflush, hw]
        refine ⟨rfl, ?_, rfl⟩
        simp [outWarnCount_append, outWarnCount, g2]
      · intro hnofit
        have hw : log_emit_overflow_warning s.dropped
            (log_flush_available_chunks s available).2.1
            (log_flush_available_chunks s available).1 =
              (false, (log_flush_available_chunks s available).1, []) := by
          simp only [log_emit_overflow_warning, h0, ite_false]
          rw [if_pos hnofit]
        rw [hflush, hw]
        constructor
        · simp [outWarnCount_append, outWarnCount, g2]
        · exact g3

/-- Witness for the amended C9 at a ready two-byte buffer with 5 dropped
bytes and 100 bytes of sink space. -/
theorem keyemu_log_flush_spec_witness :
    ((LogState.mk (fun j => if j = 0 then 65 else if j = 1 then 66 else 0)
        2 0 5 true).inited && true) = true ∧
    (outChunkBytes (keyemu_log_flush true 100
        (LogState.mk (fun j => if j = 0 then 65 else if j = 1 then 66 else 0)
          2 0 5 true)).2 ≤ 100 ∧
      ((LogState.mk (fun j => if j = 0 then 65 else if j = 1 then 66 else 0)
          2 0 5 true).dropped = 0 →
        outWarnCount (keyemu_log_flush true 100
          (LogState.mk (fun j => if j = 0 then 65 else if j = 1 then 66 else 0)
            2 0 5 true)).2 = 0 ∧
        (keyemu_log_flush true 100
          (LogState.mk (fun j => if j = 0 then 65 else if j = 1 then 66 else 0)
            2 0 5 true)).1.dropped = 0) ∧
      ((LogState.mk (fun j => if j = 0 then 65 else if j = 1 then 66 else 0)
          2 0 5 true).dropped ≠ 0 →
        (overflow_warning_len (LogState.mk
            (fun j => if j = 0 then 65 else if j = 1 then 66 else 0)
            2 0 5 true).dropped ≤
            (log_flush_available_chunks
              (LogState.mk (fun j => if j = 0 then 65 else if j = 1 then 66 else 0)
                2 0 5 true) 100).2.1 →
          (keyemu_log_flush true 100
              (LogState.mk (fun j => if j = 0 then 65 else if j = 1 then 66 else 0)
                2 0 5 true)).2 =
            (log_flush_available_chunks
              (LogState.mk (fun j => if j = 0 then 65 else if j = 1 then 66 else 0)
                2 0 5 true) 100).2.2 ++
              [OutEvt.warning (LogState.mk
                (fun j => if j = 0 then 65 else if j = 1 then 66 else 0)
                2 0 5 true).dropped] ∧
          outWarnCount (keyemu_log_flush true 100
            (LogState.mk (fun j => if j = 0 then 65 else if j = 1 then 66 else 0)
              2 0 5 true)).2 = 1 ∧
          (keyemu_log_flush true 100
            (LogState.mk (fun j => if j = 0 then 65 else if j = 1 then 66 else 0)
              2 0 5 true)).1.dropped = 0) ∧
        ((log_flush_available_chunks
            (LogState.mk (fun j => if j = 0 then 65 else if j = 1 then 66 else 0)
              2 0 5 true) 100).2.1 <
            overflow_warning_len (LogState.mk
              (fun j => if j = 0 then 65 else if j = 1 then 66 else 0)
              2 0 5 true).dropped →
          outWarnCount (keyemu_log_flush true 100
            (LogState.mk (fun j => if j = 0 then 65 else if j = 1 then 66 else 0)
              2 0 5 true)).2 = 0 ∧
          (keyemu_log_flush true 100
            (LogState.mk (fun j => if j = 0 then 65 else if j = 1 then 66 else 0)
              2 0 5 true)).1.dropped =
            (LogState.mk (fun j => if j = 0 then 65 else if j = 1 then 66 else 0)
              2 0 5 true).dropped))) :=
  ⟨rfl, (keyemu_log_flush_spec true 100
    (LogState.mk (fun j => if j = 0 then 65 else if j = 1 then 66 else 0)
      2 0 5 true)).2 rfl⟩

end PicoUSBKeyBridge
